import Mathlib

/-!
Shallow embedding of the agent-benchmark harness
(`architecture-compare/scripts/architecture-benchmark.ts`,
`architecture-compare/scripts/bash-agent-eval-benchmark.ts`,
`sandboxes/dbt/sandbox.config.ts`).

JavaScript strings are modelled as Lean `String` / `List Char`; JS numbers
used by the scorer as `ℚ`; fallible operations as `Option`.  Filesystem and
network effects are abstracted as explicit function parameters so the control
flow of the source is embedded exactly.
-/

/-- JS whitespace for `String.prototype.trim` and the regex class `\s`
(space, tab, newline, carriage return, vertical tab, form feed). -/
def isJsSpace (c : Char) : Bool :=
  c == ' ' || c == '\t' || c == '\n' || c == '\r' || c == '\x0b' || c == '\x0c'

/-- The regex word class `\w` : ASCII alphanumerics and underscore. -/
def isWordChar (c : Char) : Bool :=
  c.isAlphanum || c == '_'

/-- `String.prototype.trim()` on a character list. -/
def jsTrim (cs : List Char) : List Char :=
  ((cs.dropWhile isJsSpace).reverse.dropWhile isJsSpace).reverse

/-- Split a list at the first occurrence of `pat`, returning the part before
the occurrence and the part after it.  `none` when `pat` does not occur.
This is the primitive behind JS `indexOf` / first-match regex search for a
literal pattern. -/
def splitFirst (pat : List Char) : List Char → Option (List Char × List Char)
  | [] => if pat = [] then some ([], []) else none
  | c :: cs =>
    if pat.isPrefixOf (c :: cs) then some ([], (c :: cs).drop pat.length)
    else
      match splitFirst pat cs with
      | some (pre, post) => some (c :: pre, post)
      | none => none

/-- JS `haystack.includes(needle)` / regex test for a literal. -/
def strContains (hay needle : String) : Bool :=
  (splitFirst needle.data hay.data).isSome

/-- First match of the lazy pattern `<open>([\s\S]*?)</close>`: the content
between the first occurrence of the opening tag and the first occurrence of
the closing tag after it. -/
def extractTag (openTag closeTag : List Char) (cs : List Char) : Option (List Char) :=
  match splitFirst openTag cs with
  | none => none
  | some (_, rest) =>
    match splitFirst closeTag rest with
    | none => none
    | some (mid, _) => some mid

def openToolTag : List Char := "<tool>".data

def closeToolTag : List Char := "</tool>".data

/-- Does a match of the regex `<tool>(\w+)<\/tool>` start at the head of
`cs`?  Returns the captured word.  `(\w+)` is greedy, but since `<` is not a
word character the maximal word run followed by the close tag is exactly the
regex's behaviour. -/
def matchToolAt (cs : List Char) : Option (List Char) :=
  if openToolTag.isPrefixOf cs then
    let rest := cs.drop 6
    let word := rest.takeWhile isWordChar
    if word = [] then none
    else if closeToolTag.isPrefixOf (rest.dropWhile isWordChar) then some word
    else none
  else none

/-- JS first-match semantics of `response.match(/<tool>(\w+)<\/tool>/)`:
scan left to right for the first position where the pattern matches. -/
def findToolName : List Char → Option (List Char)
  | [] => none
  | c :: cs =>
    match matchToolAt (c :: cs) with
    | some w => some w
    | none => findToolName cs

/-- `ToolCall` of `architecture-benchmark.ts`: tool name plus the `path` /
`content` parameters (a param is present iff its tag pair matched). -/
structure ToolCallA where
  tool : String
  path : Option String
  content : Option String
deriving DecidableEq

/-- `parseToolCall` of `architecture-benchmark.ts` (lines 475-489):
`null` unless `/<tool>(\w+)<\/tool>/` matches; `path` is trimmed,
`content` is kept verbatim. -/
def parseToolCallArch (response : String) : Option ToolCallA :=
  match findToolName response.data with
  | none => none
  | some w =>
    some
      { tool := String.mk w
        path := (extractTag "<path>".data "</path>".data response.data).map
          (fun m => String.mk (jsTrim m))
        content := (extractTag "<content>".data "</content>".data response.data).map
          String.mk }

/-- `ToolCall` of `bash-agent-eval-benchmark.ts`: tool name plus the
`command` / `sql` / `table` / `value` parameters. -/
structure ToolCallB where
  tool : String
  command : Option String
  sql : Option String
  table : Option String
  value : Option String
deriving DecidableEq

/-- `parseToolCall` of `bash-agent-eval-benchmark.ts` (lines 367-387):
same tool-tag match, all four parameters trimmed. -/
def parseToolCallBash (response : String) : Option ToolCallB :=
  match findToolName response.data with
  | none => none
  | some w =>
    let grab : String → String → Option String := fun o c =>
      (extractTag o.data c.data response.data).map (fun m => String.mk (jsTrim m))
    some
      { tool := String.mk w
        command := grab "<command>" "</command>"
        sql := grab "<sql>" "</sql>"
        table := grab "<table>" "</table>"
        value := grab "<value>" "</value>" }

/-- Render an optional JS string inside a template literal: a missing value
prints as "undefined". -/
def jsRender (o : Option String) : String :=
  match o with
  | none => "undefined"
  | some s => s

/-- `haystack.startsWith(prefix)` on the character list (kernel-reducible). -/
def strStartsWith (s pre : String) : Bool :=
  pre.data.isPrefixOf s.data

/-- `haystack.endsWith(suffix)` on the character list (kernel-reducible). -/
def strEndsWith (s post : String) : Bool :=
  post.data.isSuffixOf s.data

/-- `String.prototype.toLowerCase()` (ASCII, as used by the dbt scorer). -/
def lowerStr (s : String) : String :=
  String.mk (s.data.map Char.toLower)

/-- `BASH_ALLOWED_COMMANDS` of `bash-agent-eval-benchmark.ts` (line 265). -/
def BASH_ALLOWED_COMMANDS : List String :=
  ["ls", "cat", "grep", "find", "head", "tail", "wc", "jq",
   "sort", "uniq", "awk", "cut", "tr", "echo", "expr", "bc"]

/-- The delimiter class of `command.trim().split(/[\s|;&]/)`. -/
def isBashDelim (c : Char) : Bool :=
  isJsSpace c || c == '|' || c == ';' || c == '&'

/-- `command.trim().split(/[\s|;&]/)[0]` — the leading token of the command:
everything before the first whitespace, pipe, semicolon or ampersand. -/
def firstWord (command : String) : String :=
  String.mk ((jsTrim command.data).takeWhile (fun c => !isBashDelim c))

/-- Result of `execSync`: normal stdout, or a thrown error carrying the
rendered exit status (a timeout has no exit status and renders as "null"),
stderr and stdout. -/
inductive ExecOutcome where
  | ok (stdout : String)
  | err (status : String) (stderr : String) (stdout : String)
deriving DecidableEq

/-- `truncateOutput` of `bash-agent-eval-benchmark.ts` (lines 352-355)
with its default 30000-character limit. -/
def truncateOutput (output : String) : String :=
  if output.length ≤ 30000 then output
  else String.mk (output.data.take 30000) ++
    "\n... [truncated at 30000 chars. Use more specific queries.]"

/-- `executeBashTool` of `bash-agent-eval-benchmark.ts` (lines 389-421).
The subprocess launcher `execSync` is abstracted as `runCmd`; every branch
returns observation text.  JS falsiness of `!command` covers both a missing
and an empty `<command>` parameter. -/
def executeBashTool (runCmd : String → ExecOutcome) (tool : ToolCallB) : String :=
  if tool.tool = "answer" then
    "ANSWER:" ++ jsRender tool.value
  else if tool.tool ≠ "bash" then
    "Unknown tool: " ++ tool.tool ++
      ". Use <tool>bash</tool><command>...</command> or <tool>answer</tool><value>...</value>"
  else
    match tool.command with
    | none => "Error: bash requires <command>...</command>"
    | some command =>
      if command = "" then "Error: bash requires <command>...</command>"
      else
        let fw := firstWord command
        if fw ∈ BASH_ALLOWED_COMMANDS then
          match runCmd command with
          | ExecOutcome.ok out => truncateOutput out
          | ExecOutcome.err status stderr stdout =>
            truncateOutput ("Error (exit " ++ status ++ "): " ++ stderr ++ "\n" ++ stdout)
        else
          "Error: Command \"" ++ fw ++ "\" is not allowed. Allowed: " ++
            String.intercalate ", " BASH_ALLOWED_COMMANDS

/-- `ValidationResult` of `sandboxes/types.ts`: `{valid, actual?, error?}`. -/
structure ValidationResultM where
  valid : Bool
  actual : Option ℚ
  error : Option String
deriving DecidableEq

/-- The scoring step of `runBenchmark`
(`architecture-benchmark.ts` lines 693-694, identically `part_011` 423-424):
`diff = Math.abs((validation.actual ?? 0) - expected); pass = diff <= tolerance`. -/
def scorePass (actual : Option ℚ) (expected tolerance : ℚ) : Bool :=
  decide (|actual.getD 0 - expected| ≤ tolerance)

/-- `ToolUsage` of `architecture-benchmark.ts`. -/
structure ToolUsageA where
  readFiles : List String
  listFiles : List String
  writeFiles : List String
deriving DecidableEq

/-- The fields of `SandboxConfig` the embedded scorer reads. -/
structure SandboxConfigM where
  id : String
  contextFiles : List String
deriving DecidableEq

/-- Strip the first match of `/^\.\/+/`: a leading dot followed by one or
more slashes. -/
def stripDotSlash : List Char → List Char
  | '.' :: '/' :: rest => rest.dropWhile (fun c => c == '/')
  | cs => cs

/-- `normalizePath` of `architecture-benchmark.ts` (lines 433-435):
`value.trim().replace(/^\.\/+/, '')`. -/
def normalizePath (value : String) : String :=
  String.mk (stripDotSlash (jsTrim value.data))

/-- Case-insensitive regex test for a literal alternative (`/.../i`). -/
def strContainsCI (hay needle : String) : Bool :=
  strContains (String.map Char.toLower hay) needle

/-- `isSchemaError` of `architecture-benchmark.ts` (lines 437-440):
`/column|table|relation|no such|unknown|does not exist|invalid identifier/i`
tested against the error text; `false` for a missing error. -/
def isSchemaError (error : Option String) : Bool :=
  match error with
  | none => false
  | some e =>
    strContainsCI e "column" || strContainsCI e "table" || strContainsCI e "relation" ||
    strContainsCI e "no such" || strContainsCI e "unknown" ||
    strContainsCI e "does not exist" || strContainsCI e "invalid identifier"

/-- `computeToolUsageScore` of `architecture-benchmark.ts` (lines 442-452):
the fraction of declared context files whose normalized path was read;
0 when nothing was read or no context files are declared. -/
def computeToolUsageScore (toolUsage : Option ToolUsageA) (config : SandboxConfigM) : ℚ :=
  match toolUsage with
  | none => 0
  | some tu =>
    if tu.readFiles.length = 0 then 0
    else
      let keyFiles := config.contextFiles.map normalizePath
      if keyFiles.length = 0 then 0
      else
        let reads := tu.readFiles.map normalizePath
        let hits := (keyFiles.filter (fun f => reads.contains f)).length
        (hits : ℚ) / (keyFiles.length : ℚ)

/-- `RubricScore` of `architecture-benchmark.ts`. -/
structure RubricScore where
  runtime : ℚ
  output : ℚ
  schema : ℚ
  toolUsage : ℚ
  total : ℚ
deriving DecidableEq

/-- `computeRubric` of `architecture-benchmark.ts` (lines 454-473). -/
def computeRubric (config : SandboxConfigM) (pass validationOk : Bool)
    (error : Option String) (toolUsage : Option ToolUsageA) : RubricScore :=
  let runtime : ℚ := if validationOk then 1 else 0
  let output : ℚ := if pass then 1 else 0
  let schema : ℚ := if validationOk && !isSchemaError error then 1 else 0
  let toolUsageScore := computeToolUsageScore toolUsage config
  { runtime := runtime
    output := output
    schema := schema
    toolUsage := toolUsageScore
    total := (runtime + output + schema + toolUsageScore) / 4 }

/-- Conversation roles of the agent loop. -/
inductive Role where
  | user
  | assistant
deriving DecidableEq

/-- One `{role, content}` conversation turn. -/
structure Message where
  role : Role
  content : String
deriving DecidableEq

/-- Return value of `runAgent` in `architecture-benchmark.ts`. -/
structure AgentOutcome where
  success : Bool
  turns : Nat
  error : Option String
deriving DecidableEq

/-- The corrective observation injected when no tool parses
(`architecture-benchmark.ts` line 576). -/
def correctiveText : String :=
  "Use a tool: read_file, write_file, list_files, or done"

/-- The turn loop of `runAgent` (`architecture-benchmark.ts` lines 568-595),
with the model gateway abstracted as `llm` (response as a function of the
conversation) and the tool executor abstracted as `exec` over a workspace
state `σ`.  `remaining` counts the iterations left, so the current turn
number is `maxTurns - remaining + 1`; the result also carries the final
conversation, workspace, and the number of gateway calls issued. -/
def runAgentAux (llm : List Message → String) (exec : ToolCallA → σ → String × σ)
    (maxTurns : Nat) :
    Nat → List Message → σ → Nat → AgentOutcome × List Message × σ × Nat
  | 0, msgs, ws, calls =>
    ({ success := false, turns := maxTurns, error := some "Max turns exceeded" },
      msgs, ws, calls)
  | remaining + 1, msgs, ws, calls =>
    let turn := maxTurns - remaining
    let response := llm msgs
    let msgs1 := msgs ++ [{ role := Role.assistant, content := response }]
    match parseToolCallArch response with
    | none =>
      runAgentAux llm exec maxTurns remaining
        (msgs1 ++ [{ role := Role.user, content := correctiveText }]) ws (calls + 1)
    | some tc =>
      if tc.tool = "done" then
        ({ success := true, turns := turn, error := none }, msgs1, ws, calls + 1)
      else
        let r := exec tc ws
        runAgentAux llm exec maxTurns remaining
          (msgs1 ++ [{ role := Role.user, content := r.1 }]) r.2 (calls + 1)

/-- `runAgent` of `architecture-benchmark.ts`: seed the conversation with the
task prompt and run up to `maxTurns` turns. -/
def runAgent (llm : List Message → String) (exec : ToolCallA → σ → String × σ)
    (taskPrompt : String) (ws : σ) (maxTurns : Nat) :
    AgentOutcome × List Message × σ × Nat :=
  runAgentAux llm exec maxTurns maxTurns [{ role := Role.user, content := taskPrompt }] ws 0

/-- The fields of `Task` the embedded orchestrator reads. -/
structure TaskM where
  id : String
  expected : ℚ
  tolerance : ℚ
deriving DecidableEq

/-- One `BenchmarkResult` row as appended by `runBenchmark`
(`architecture-benchmark.ts` lines 655-717); fields not relevant to the
claims (duration, token usage, tool trace, rubric) are omitted. -/
structure BenchmarkResultM where
  sandbox : String
  task : String
  pass : Bool
  expected : ℚ
  actual : Option ℚ
  turns : Nat
  error : Option String
deriving DecidableEq

/-- The body of `runBenchmark`'s inner loop for one (sandbox, task) pair
(`architecture-benchmark.ts` lines 624-717): run the agent, then validate,
then score; each of the three exits pushes exactly one result.  The agent
and the validator are abstracted as functions of the pair. -/
def runTask (agent : String → TaskM → AgentOutcome)
    (validate : String → TaskM → ValidationResultM)
    (sandboxId : String) (task : TaskM) : BenchmarkResultM :=
  let expected := task.expected
  let agentResult := agent sandboxId task
  if !agentResult.success then
    { sandbox := sandboxId, task := task.id, pass := false, expected := expected
      actual := none, turns := agentResult.turns, error := agentResult.error }
  else
    let validation := validate sandboxId task
    if !validation.valid then
      { sandbox := sandboxId, task := task.id, pass := false, expected := expected
        actual := none, turns := agentResult.turns, error := validation.error }
    else
      { sandbox := sandboxId, task := task.id
        pass := scorePass validation.actual expected task.tolerance
        expected := expected, actual := validation.actual
        turns := agentResult.turns, error := none }

/-- Task selection of `runBenchmark` (lines 620-622): filter by the chosen
ids when any are given, otherwise all tasks. -/
def selectedTasks (taskIds : List String) (tasks : List TaskM) : List TaskM :=
  if taskIds.length > 0 then tasks.filter (fun t => taskIds.contains t.id) else tasks

/-- `runBenchmark` of `architecture-benchmark.ts` (lines 602-722): the nested
`for` loops over sandboxes and selected tasks, each iteration pushing one
result onto the accumulator. -/
def runBenchmark (agent : String → TaskM → AgentOutcome)
    (validate : String → TaskM → ValidationResultM)
    (sandboxIds : List String) (taskIds : List String) (tasks : List TaskM) :
    List BenchmarkResultM :=
  sandboxIds.foldl
    (fun acc sandboxId =>
      (selectedTasks taskIds tasks).foldl
        (fun acc2 task => acc2 ++ [runTask agent validate sandboxId task]) acc)
    []

/-- `task.sqlFile.replace(/^stg_/, '').replace(/\.sql$/, '')` of
`sandboxes/dbt/sandbox.config.ts` (line 59). -/
def sqlBaseName (sqlFile : String) : String :=
  let s := if strStartsWith sqlFile "stg_" then String.mk (sqlFile.data.drop 4) else sqlFile
  if strEndsWith s ".sql" then String.mk (s.data.take (s.data.length - 4)) else s

/-- The fixed filename variants tried first by the dbt validator
(`sandbox.config.ts` lines 60-66). -/
def sqlVariations (sqlFile : String) : List String :=
  let baseName := sqlBaseName sqlFile
  [sqlFile,
   baseName ++ ".sql",
   "stg_" ++ baseName ++ "_metric.sql",
   baseName ++ "_model.sql",
   "fct_" ++ baseName ++ ".sql"]

/-- `scoreFile` of `sandboxes/dbt/sandbox.config.ts` (lines 85-113):
heuristic score of one candidate filename against the task.  `taskId` is the
raw `task.id` (the source lowercases it before comparing). -/
def scoreFile (sqlFile taskId file : String) : Int :=
  let baseName := sqlBaseName sqlFile
  let normalizedBase := lowerStr baseName
  let baseNoUnderscore := String.mk (normalizedBase.data.filter (fun c => c != '_'))
  let tid := lowerStr taskId
  let name := lowerStr file
  (if name = lowerStr sqlFile then 100 else 0)
  + (if name = normalizedBase ++ ".sql" then 90 else 0)
  + (if strContains name normalizedBase then 50 else 0)
  + (if strContains name baseNoUnderscore then 40 else 0)
  + (if strContains name tid then 30 else 0)
  + (if strContains name ("stripe_" ++ normalizedBase) then 30 else 0)
  + (if strContains name ("stripe_" ++ baseNoUnderscore) then 20 else 0)
  + (if tid = "churn_rate" && strContains name "churn" && strContains name "rate"
       then 25 else 0)
  + (if tid = "ltv" && strContains name "ltv" then 25 else 0)
  + (if tid = "arpu" && strContains name "arpu" then 25 else 0)
  - (if strContains name "stripe_invoices" || strContains name "stripe_subscriptions" ||
        strContains name "stripe_customers" || strContains name "stripe_products" ||
        strContains name "stripe_prices"
       then 20 else 0)

/-- `files.map(f => ({f, score})).sort((a, b) => b.score - a.score)[0]` of
`sandbox.config.ts` (lines 115-117): the head of a stable descending sort,
i.e. the earliest candidate attaining the maximal score. -/
def pickBest (score : String → Int) : List String → Option (String × Int)
  | [] => none
  | f :: fs =>
    match pickBest score fs with
    | none => some (f, score f)
    | some (g, sg) => if score f ≥ sg then some (f, score f) else some (g, sg)

/-- The artifact-discovery phase of the dbt validator
(`sandbox.config.ts` lines 69-123): restrict the directory listing to `.sql`
files, try the fixed variants in order, otherwise score every candidate and
accept the best only when its score is positive. -/
def discoverSql (sqlFile taskId : String) (dirFiles : List String) : Option String :=
  let files := dirFiles.filter (fun f => strEndsWith f ".sql")
  match (sqlVariations sqlFile).find? (fun v => files.contains v) with
  | some v => some v
  | none =>
    if files.length > 0 then
      match pickBest (scoreFile sqlFile taskId) files with
      | some (f, s) => if s > 0 then some f else none
      | none => none
    else none

/-- C1: for a completed run whose validator reports `valid = true` with a
numeric actual, the scorer passes the run iff `|actual - expected|` is at
most the task's tolerance; with expected 1000 and tolerance 1, an actual of
999.5 passes and an actual of 998 fails. -/
theorem scorer_pass_iff_within_tolerance :
    (∀ (agent : String → TaskM → AgentOutcome)
       (validate : String → TaskM → ValidationResultM)
       (sid : String) (task : TaskM) (a : ℚ) (err : Option String),
        (agent sid task).success = true →
        validate sid task = { valid := true, actual := some a, error := err } →
        ((runTask agent validate sid task).pass = true ↔
          |a - task.expected| ≤ task.tolerance)) ∧
    scorePass (some (1999 / 2)) 1000 1 = true ∧
    scorePass (some 998) 1000 1 = false := by
  refine ⟨fun agent validate sid task a err h1 h2 => ?_, by norm_num [scorePass, abs_le],
    by norm_num [scorePass, abs_le]⟩
  simp [runTask, h1, h2, scorePass]

theorem scorer_pass_iff_within_tolerance_witness :
    ((runTask (fun _ _ => { success := true, turns := 1, error := none })
        (fun _ _ => { valid := true, actual := some 999, error := none })
        "app-typed" { id := "active_user_arpu", expected := 1000, tolerance := 1 }).pass
      = true ↔ |(999 : ℚ) - 1000| ≤ 1) :=
  scorer_pass_iff_within_tolerance.1
    (fun _ _ => { success := true, turns := 1, error := none })
    (fun _ _ => { valid := true, actual := some 999, error := none })
    "app-typed" { id := "active_user_arpu", expected := 1000, tolerance := 1 }
    999 none rfl rfl

/-- C10: when the validator reports `valid = true` but no actual value, the
scorer substitutes 0 (`actual ?? 0`) and compares `|0 - expected|` against
the tolerance, so such a run passes whenever `|expected|` is at most the
tolerance. -/
theorem scorer_missing_actual_defaults_to_zero :
    ∀ (agent : String → TaskM → AgentOutcome)
      (validate : String → TaskM → ValidationResultM)
      (sid : String) (task : TaskM) (err : Option String),
      (agent sid task).success = true →
      validate sid task = { valid := true, actual := none, error := err } →
      (runTask agent validate sid task).pass =
        decide (|(0 : ℚ) - task.expected| ≤ task.tolerance) ∧
      (|task.expected| ≤ task.tolerance →
        (runTask agent validate sid task).pass = true) := by
  intro agent validate sid task err h1 h2
  constructor
  · simp [runTask, h1, h2, scorePass]
  · intro hle
    simp [runTask, h1, h2, scorePass]
    simpa using hle

theorem scorer_missing_actual_defaults_to_zero_witness :
    (runTask (fun _ _ => { success := true, turns := 2, error := none })
        (fun _ _ => { valid := true, actual := none, error := none })
        "warehouse-dbt" { id := "org_churn_rate", expected := 1 / 2, tolerance := 1 }).pass
      = true :=
  (scorer_missing_actual_defaults_to_zero
      (fun _ _ => { success := true, turns := 2, error := none })
      (fun _ _ => { valid := true, actual := none, error := none })
      "warehouse-dbt" { id := "org_churn_rate", expected := 1 / 2, tolerance := 1 }
      none rfl rfl).2 (by norm_num [abs_le])

/-- Folding a push loop (`results.push(...)` per iteration) appends one
mapped element per list element. -/
theorem foldl_push_eq_append_map {α β : Type} (f : α → β) :
    ∀ (l : List α) (acc : List β),
      l.foldl (fun a x => a ++ [f x]) acc = acc ++ l.map f := by
  intro l
  induction l with
  | nil => intro acc; simp
  | cons x xs ih => intro acc; simp [List.foldl_cons, ih]

/-- Every branch of the per-combination body tags its single result with the
sandbox id and the task id it was invoked for. -/
theorem runTask_fields (agent : String → TaskM → AgentOutcome)
    (validate : String → TaskM → ValidationResultM) (sid : String) (t : TaskM) :
    (runTask agent validate sid t).sandbox = sid ∧
      (runTask agent validate sid t).task = t.id := by
  cases h1 : (agent sid t).success <;> cases h2 : (validate sid t).valid <;>
    simp [runTask, h1, h2]

/-- C3: the orchestrator produces exactly one `BenchmarkResult` per
(sandbox, task) combination it iterates over — the result list is the
concatenation, in iteration order, of one row per combination, its length is
the product of the two loop lengths, and the (sandbox, task) tags of the rows
are exactly the iterated combinations, so no attempted combination is
dropped. -/
theorem benchmark_one_result_per_combination
    (agent : String → TaskM → AgentOutcome)
    (validate : String → TaskM → ValidationResultM)
    (sandboxIds taskIds : List String) (tasks : List TaskM) :
    runBenchmark agent validate sandboxIds taskIds tasks =
      (sandboxIds.map (fun sid =>
        (selectedTasks taskIds tasks).map (runTask agent validate sid))).flatten ∧
    (runBenchmark agent validate sandboxIds taskIds tasks).length =
      sandboxIds.length * (selectedTasks taskIds tasks).length ∧
    (runBenchmark agent validate sandboxIds taskIds tasks).map
        (fun r => (r.sandbox, r.task)) =
      (sandboxIds.map (fun sid =>
        (selectedTasks taskIds tasks).map (fun t => (sid, t.id)))).flatten := by
  have hflat : ∀ (sids : List String) (acc : List BenchmarkResultM),
      sids.foldl
        (fun a sid => (selectedTasks taskIds tasks).foldl
          (fun a2 task => a2 ++ [runTask agent validate sid task]) a) acc =
      acc ++ (sids.map (fun sid =>
        (selectedTasks taskIds tasks).map (runTask agent validate sid))).flatten := by
    intro sids
    induction sids with
    | nil => intro acc; simp
    | cons s ss ih =>
      intro acc
      rw [List.foldl_cons, foldl_push_eq_append_map, ih, List.map_cons,
        List.flatten_cons, List.append_assoc]
  have h1 : runBenchmark agent validate sandboxIds taskIds tasks =
      (sandboxIds.map (fun sid =>
        (selectedTasks taskIds tasks).map (runTask agent validate sid))).flatten := by
    unfold runBenchmark
    simpa using hflat sandboxIds []
  have h2 : ∀ sids : List String,
      ((sids.map (fun sid =>
        (selectedTasks taskIds tasks).map (runTask agent validate sid))).flatten).length =
      sids.length * (selectedTasks taskIds tasks).length := by
    intro sids
    induction sids with
    | nil => simp
    | cons s ss ih => simp [ih, Nat.succ_mul, Nat.add_comm]
  have h3 : ∀ sids : List String,
      ((sids.map (fun sid =>
        (selectedTasks taskIds tasks).map (runTask agent validate sid))).flatten).map
          (fun r => (r.sandbox, r.task)) =
      (sids.map (fun sid =>
        (selectedTasks taskIds tasks).map (fun t => (sid, t.id)))).flatten := by
    intro sids
    induction sids with
    | nil => simp
    | cons s ss ih =>
      simp only [List.map_cons, List.flatten_cons, List.map_append, ih, List.map_map]
      congr 1
      refine List.map_congr_left (fun t _ => ?_)
      show ((runTask agent validate s t).sandbox, (runTask agent validate s t).task) = (s, t.id)
      rw [(runTask_fields agent validate s t).1, (runTask_fields agent validate s t).2]
  exact ⟨h1, by rw [h1]; exact h2 sandboxIds, by rw [h1]; exact h3 sandboxIds⟩

/-- The number of gateway calls issued by the agent loop is bounded by the
remaining iteration budget. -/
theorem runAgentAux_calls_le {σ : Type} (llm : List Message → String)
    (exec : ToolCallA → σ → String × σ) (maxTurns : Nat) :
    ∀ (remaining : Nat) (msgs : List Message) (ws : σ) (calls : Nat),
      (runAgentAux llm exec maxTurns remaining msgs ws calls).2.2.2 ≤ calls + remaining := by
  intro remaining
  induction remaining with
  | zero => intro msgs ws calls; simp [runAgentAux]
  | succ rem ih =>
    intro msgs ws calls
    simp only [runAgentAux]
    cases h : parseToolCallArch (llm msgs) with
    | none => exact le_trans (ih _ _ _) (by omega)
    | some tc =>
      by_cases hd : tc.tool = "done"
      · simp [hd]
      · simp only [hd, if_false]
        exact le_trans (ih _ _ _) (by omega)

/-- The loop's outcome is either a success with no error, or the distinct
"Max turns exceeded" failure reporting the full budget as turns used. -/
theorem runAgentAux_outcome {σ : Type} (llm : List Message → String)
    (exec : ToolCallA → σ → String × σ) (maxTurns : Nat) :
    ∀ (remaining : Nat) (msgs : List Message) (ws : σ) (calls : Nat),
      ((runAgentAux llm exec maxTurns remaining msgs ws calls).1.success = true ∧
        (runAgentAux llm exec maxTurns remaining msgs ws calls).1.error = none) ∨
      (runAgentAux llm exec maxTurns remaining msgs ws calls).1 =
        { success := false, turns := maxTurns, error := some "Max turns exceeded" } := by
  intro remaining
  induction remaining with
  | zero => intro msgs ws calls; right; simp [runAgentAux]
  | succ rem ih =>
    intro msgs ws calls
    simp only [runAgentAux]
    cases h : parseToolCallArch (llm msgs) with
    | none => exact ih _ _ _
    | some tc =>
      by_cases hd : tc.tool = "done"
      · left; simp [hd]
      · simp only [hd, if_false]
        exact ih _ _ _

/-- C5: a run configured with `maxTurns` issues at most `maxTurns` gateway
calls, and exhausting the budget without a terminal `done` is reported as
the distinct failure "Max turns exceeded" (with `turns = maxTurns`), never
as an execution error — an unsuccessful outcome carries exactly that error
string, and a successful one carries none. -/
theorem agent_loop_call_budget {σ : Type} (llm : List Message → String)
    (exec : ToolCallA → σ → String × σ) (prompt : String) (ws : σ) (maxTurns : Nat) :
    (runAgent llm exec prompt ws maxTurns).2.2.2 ≤ maxTurns ∧
    ((runAgent llm exec prompt ws maxTurns).1.success = false →
      (runAgent llm exec prompt ws maxTurns).1 =
        { success := false, turns := maxTurns, error := some "Max turns exceeded" }) ∧
    ((runAgent llm exec prompt ws maxTurns).1.success = true →
      (runAgent llm exec prompt ws maxTurns).1.error = none) := by
  refine ⟨?_, ?_, ?_⟩
  · simpa using runAgentAux_calls_le llm exec maxTurns maxTurns _ ws 0
  · intro hf
    rcases runAgentAux_outcome llm exec maxTurns maxTurns _ ws 0 with ⟨hs, _⟩ | h
    · rw [runAgent] at hf; rw [hs] at hf; cases hf
    · exact h
  · intro hs
    rcases runAgentAux_outcome llm exec maxTurns maxTurns _ ws 0 with ⟨_, he⟩ | h
    · exact he
    · rw [runAgent] at hs; rw [h] at hs; cases hs

theorem agent_loop_call_budget_witness :
    (runAgent (fun _ => "thinking...") (fun (_ : ToolCallA) (ws : Unit) => ("", ws))
        "compute ARPU" () 2).1 =
      { success := false, turns := 2, error := some "Max turns exceeded" } :=
  (agent_loop_call_budget (fun _ => "thinking...")
      (fun (_ : ToolCallA) (ws : Unit) => ("", ws)) "compute ARPU" () 2).2.1 rfl

/-- C8: a turn whose model output parses to no tool appends exactly one
corrective user observation: the conversation grows by exactly the assistant
turn and the corrective turn, one turn of the budget and one gateway call are
consumed, and the workspace state is untouched. -/
theorem agent_loop_no_tool_step {σ : Type} (llm : List Message → String)
    (exec : ToolCallA → σ → String × σ) (maxTurns remaining : Nat)
    (msgs : List Message) (ws : σ) (calls : Nat)
    (h : parseToolCallArch (llm msgs) = none) :
    runAgentAux llm exec maxTurns (remaining + 1) msgs ws calls =
      runAgentAux llm exec maxTurns remaining
        (msgs ++ [{ role := Role.assistant, content := llm msgs },
                  { role := Role.user, content := correctiveText }]) ws (calls + 1) := by
  simp [runAgentAux, h]

theorem agent_loop_no_tool_step_witness :
    runAgentAux (fun _ => "let me look around first")
        (fun (_ : ToolCallA) (ws : Unit) => ("", ws)) 20 19
        [{ role := Role.user, content := "TASK: create the model" }] () 0 =
      runAgentAux (fun _ => "let me look around first")
        (fun (_ : ToolCallA) (ws : Unit) => ("", ws)) 20 18
        ([{ role := Role.user, content := "TASK: create the model" }] ++
          [{ role := Role.assistant, content := "let me look around first" },
           { role := Role.user, content := correctiveText }]) () 1 :=
  agent_loop_no_tool_step (fun _ => "let me look around first")
    (fun (_ : ToolCallA) (ws : Unit) => ("", ws)) 20 18
    [{ role := Role.user, content := "TASK: create the model" }] () 0 (by decide)

/-- C6: a bash call whose leading token is outside the allow-list yields an
error observation whose text is independent of the subprocess launcher (the
command is never run), and a subprocess error or timeout on an allowed
command is rendered as observation text by the same total function — no
branch escapes as an exception. -/
theorem bash_tool_guard_and_subprocess_errors :
    (∀ (runCmd : String → ExecOutcome) (tc : ToolCallB) (cmd : String),
      tc.tool = "bash" → tc.command = some cmd → cmd ≠ "" →
      firstWord cmd ∉ BASH_ALLOWED_COMMANDS →
      executeBashTool runCmd tc =
        "Error: Command \"" ++ firstWord cmd ++ "\" is not allowed. Allowed: " ++
          String.intercalate ", " BASH_ALLOWED_COMMANDS) ∧
    (∀ (tc : ToolCallB) (cmd status stderr stdout : String),
      tc.tool = "bash" → tc.command = some cmd → cmd ≠ "" →
      firstWord cmd ∈ BASH_ALLOWED_COMMANDS →
      executeBashTool (fun _ => ExecOutcome.err status stderr stdout) tc =
        truncateOutput ("Error (exit " ++ status ++ "): " ++ stderr ++ "\n" ++ stdout)) := by
  constructor
  · intro runCmd tc cmd h1 h2 h3 h4
    simp [executeBashTool, h1, h2, h3, h4]
  · intro tc cmd status stderr stdout h1 h2 h3 h4
    simp [executeBashTool, h1, h2, h3, h4]

theorem bash_tool_guard_and_subprocess_errors_witness :
    executeBashTool (fun _ => ExecOutcome.ok "should never be seen")
        { tool := "bash", command := some "python3 compute_arpu.py",
          sql := none, table := none, value := none } =
      "Error: Command \"" ++ firstWord "python3 compute_arpu.py" ++
        "\" is not allowed. Allowed: " ++
        String.intercalate ", " BASH_ALLOWED_COMMANDS :=
  bash_tool_guard_and_subprocess_errors.1
    (fun _ => ExecOutcome.ok "should never be seen")
    { tool := "bash", command := some "python3 compute_arpu.py",
      sql := none, table := none, value := none }
    "python3 compute_arpu.py" rfl rfl (by decide) (by decide)

/-- When the leading token passes the allow-list check, the executor hands
the full, unmodified command string to the subprocess launcher. -/
theorem executeBashTool_runs_full_command (runCmd : String → ExecOutcome)
    (tc : ToolCallB) (cmd : String) (h1 : tc.tool = "bash")
    (h2 : tc.command = some cmd) (h3 : cmd ≠ "")
    (h4 : firstWord cmd ∈ BASH_ALLOWED_COMMANDS) :
    executeBashTool runCmd tc =
      match runCmd cmd with
      | ExecOutcome.ok out => truncateOutput out
      | ExecOutcome.err status stderr stdout =>
        truncateOutput ("Error (exit " ++ status ++ "): " ++ stderr ++ "\n" ++ stdout) := by
  simp [executeBashTool, h1, h2, h3, h4]

/-- C9: the bash guard inspects only the token before the first whitespace,
pipe, semicolon or ampersand.  A concrete command whose leading token is
allowed but whose second pipeline segment starts an interpreter outside the
allow-list is handed as a whole to the shell launcher for every launcher. -/
theorem bash_guard_checks_first_token_only :
    firstWord "cat data/users.json | python3 evil.py" ∈ BASH_ALLOWED_COMMANDS ∧
    firstWord "python3 evil.py" ∉ BASH_ALLOWED_COMMANDS ∧
    "cat data/users.json | python3 evil.py" =
      "cat data/users.json " ++ "| " ++ "python3 evil.py" ∧
    (∀ runCmd : String → ExecOutcome,
      executeBashTool runCmd
          { tool := "bash", command := some "cat data/users.json | python3 evil.py",
            sql := none, table := none, value := none } =
        match runCmd "cat data/users.json | python3 evil.py" with
        | ExecOutcome.ok out => truncateOutput out
        | ExecOutcome.err status stderr stdout =>
          truncateOutput ("Error (exit " ++ status ++ "): " ++ stderr ++ "\n" ++ stdout)) := by
  refine ⟨by decide, by decide, by decide, fun runCmd => ?_⟩
  exact executeBashTool_runs_full_command runCmd
    { tool := "bash", command := some "cat data/users.json | python3 evil.py",
      sql := none, table := none, value := none }
    "cat data/users.json | python3 evil.py" rfl rfl (by decide) (by decide)

/-- The tool-usage component is always between 0 and 1. -/
theorem computeToolUsageScore_bounds (tu : Option ToolUsageA) (config : SandboxConfigM) :
    0 ≤ computeToolUsageScore tu config ∧ computeToolUsageScore tu config ≤ 1 := by
  cases tu with
  | none => simp [computeToolUsageScore]
  | some u =>
    by_cases h0 : u.readFiles.length = 0
    · simp [computeToolUsageScore, h0]
    · by_cases h1 : (config.contextFiles.map normalizePath).length = 0
      · simp [computeToolUsageScore, h0, h1]
      · have hn : (0 : ℚ) < ((config.contextFiles.map normalizePath).length : ℚ) := by
          exact_mod_cast Nat.pos_of_ne_zero h1
        have hle : (((config.contextFiles.map normalizePath).filter
            (fun f => (u.readFiles.map normalizePath).contains f)).length : ℚ) ≤
            ((config.contextFiles.map normalizePath).length : ℚ) := by
          exact_mod_cast List.length_filter_le _ _
        constructor
        · simp only [computeToolUsageScore, h0, h1, if_false]
          positivity
        · simp only [computeToolUsageScore, h0, h1, if_false]
          exact div_le_one_of_le₀ hle (le_of_lt hn)

/-- C7: each of the four rubric components lies in [0, 1]; the total is their
unweighted mean; and the tool-usage component is 0 when the tool trace is
missing, when the sandbox declares no context files, or when none of the
declared context files was read. -/
theorem rubric_components_bounded_mean (config : SandboxConfigM)
    (pass validationOk : Bool) (error : Option String) (tu : Option ToolUsageA) :
    (0 ≤ (computeRubric config pass validationOk error tu).runtime ∧
      (computeRubric config pass validationOk error tu).runtime ≤ 1) ∧
    (0 ≤ (computeRubric config pass validationOk error tu).output ∧
      (computeRubric config pass validationOk error tu).output ≤ 1) ∧
    (0 ≤ (computeRubric config pass validationOk error tu).schema ∧
      (computeRubric config pass validationOk error tu).schema ≤ 1) ∧
    (0 ≤ (computeRubric config pass validationOk error tu).toolUsage ∧
      (computeRubric config pass validationOk error tu).toolUsage ≤ 1) ∧
    (computeRubric config pass validationOk error tu).total =
      ((computeRubric config pass validationOk error tu).runtime +
        (computeRubric config pass validationOk error tu).output +
        (computeRubric config pass validationOk error tu).schema +
        (computeRubric config pass validationOk error tu).toolUsage) / 4 ∧
    (config.contextFiles = [] →
      (computeRubric config pass validationOk error tu).toolUsage = 0) ∧
    (∀ u, tu = some u →
      (∀ f ∈ config.contextFiles.map normalizePath,
        (u.readFiles.map normalizePath).contains f = false) →
      (computeRubric config pass validationOk error tu).toolUsage = 0) ∧
    (tu = none → (computeRubric config pass validationOk error tu).toolUsage = 0) := by
  refine ⟨?_, ?_, ?_, ?_, rfl, ?_, ?_, ?_⟩
  · cases validationOk <;> simp [computeRubric]
  · cases pass <;> simp [computeRubric]
  · cases validationOk <;> cases h : isSchemaError error <;> simp [computeRubric, h]
  · exact computeToolUsageScore_bounds tu config
  · intro hempty
    cases tu with
    | none => simp [computeRubric, computeToolUsageScore]
    | some u => simp [computeRubric, computeToolUsageScore, hempty]
  · intro u hu hnone
    subst hu
    by_cases h0 : u.readFiles.length = 0
    · simp [computeRubric, computeToolUsageScore, h0]
    · by_cases h1 : (config.contextFiles.map normalizePath).length = 0
      · simp [computeRubric, computeToolUsageScore, h0, h1]
      · have hfilter : (config.contextFiles.map normalizePath).filter
            (fun f => (u.readFiles.map normalizePath).contains f) = [] := by
          rw [List.filter_eq_nil_iff]
          intro f hf
          rw [hnone f hf]
          simp
        have hscore : computeToolUsageScore (some u) config = 0 := by
          simp only [computeToolUsageScore, h0, if_false, h1, hfilter]
          simp
        simpa [computeRubric] using hscore
  · intro h
    subst h
    simp [computeRubric, computeToolUsageScore]

theorem rubric_components_bounded_mean_witness :
    (computeRubric { id := "warehouse-dbt", contextFiles := [] } true true none
        (some { readFiles := ["models/staging/stg_stripe_invoices.sql"],
                listFiles := [], writeFiles := [] })).toolUsage = 0 :=
  (rubric_components_bounded_mean { id := "warehouse-dbt", contextFiles := [] }
      true true none
      (some { readFiles := ["models/staging/stg_stripe_invoices.sql"],
              listFiles := [], writeFiles := [] })).2.2.2.2.2.1 rfl

/-- `pickBest` finds a candidate exactly when the list is nonempty. -/
theorem pickBest_none_iff (score : String → Int) (l : List String) :
    pickBest score l = none ↔ l = [] := by
  cases l with
  | nil => simp [pickBest]
  | cons a as =>
    simp only [pickBest]
    cases h : pickBest score as with
    | none => simp
    | some gs =>
      by_cases hge : score a ≥ gs.2
      · simp [hge]
      · simp [hge]

/-- The head of the stable descending sort: `pickBest` returns the score of
the chosen file, the chosen score dominates every candidate, and every
candidate listed before the chosen one scores strictly less (first wins a
tie). -/
theorem pickBest_spec (score : String → Int) :
    ∀ (l : List String) (f : String) (s : Int),
      pickBest score l = some (f, s) →
      s = score f ∧ (∀ g ∈ l, score g ≤ s) ∧
      ∃ l1 l2, l = l1 ++ f :: l2 ∧ ∀ g ∈ l1, score g < s := by
  intro l
  induction l with
  | nil => intro f s h; cases h
  | cons a as ih =>
    intro f s h
    cases hrest : pickBest score as with
    | none =>
      have hnil : as = [] := (pickBest_none_iff score as).mp hrest
      subst hnil
      rw [pickBest] at h
      cases h
      refine ⟨rfl, ?_, [], [], rfl, ?_⟩
      · intro g hg
        rcases List.mem_singleton.mp hg with rfl
        exact le_refl _
      · intro g hg; cases hg
    | some gs =>
      obtain ⟨g, sg⟩ := gs
      simp only [pickBest, hrest] at h
      by_cases hge : score a ≥ sg
      · rw [if_pos hge] at h
        cases h
        obtain ⟨hsg, hball, _⟩ := ih g sg hrest
        refine ⟨rfl, ?_, [], as, rfl, ?_⟩
        · intro x hx
          rcases List.mem_cons.mp hx with rfl | hx2
          · exact le_refl _
          · exact le_trans (hball x hx2) hge
        · intro x hx; cases hx
      · rw [if_neg hge] at h
        cases h
        obtain ⟨hsg, hball, l1, l2, hdec, hlt⟩ := ih f s hrest
        have hlt_a : score a < s := lt_of_not_ge hge
        refine ⟨hsg, ?_, a :: l1, l2, by simp [hdec], ?_⟩
        · intro x hx
          rcases List.mem_cons.mp hx with rfl | hx2
          · exact le_of_lt hlt_a
          · exact hball x hx2
        · intro x hx
          rcases List.mem_cons.mp hx with rfl | hx2
          · exact hlt_a
          · exact hlt x hx2

/-- C2 counterexample: for task `arpu` (`sqlFile = "stg_arpu.sql"`) and the
staging directory `["a_arpu.sql", "b_arpu.sql"]`, no fixed filename variant
matches and both candidates tie for the positive top score 145, yet the
validator picks `a_arpu.sql` instead of reporting "not found". -/
theorem dbt_discovery_tie_counterexample :
    (sqlVariations "stg_arpu.sql").find?
        (fun v => (["a_arpu.sql", "b_arpu.sql"].filter
          (fun f => strEndsWith f ".sql")).contains v) = none ∧
    scoreFile "stg_arpu.sql" "arpu" "a_arpu.sql" = 145 ∧
    scoreFile "stg_arpu.sql" "arpu" "b_arpu.sql" = 145 ∧
    discoverSql "stg_arpu.sql" "arpu" ["a_arpu.sql", "b_arpu.sql"] = some "a_arpu.sql" := by
  refine ⟨by decide, by decide, by decide, by decide⟩

/-- C2 (amended): when no fixed variant matches, a zero-or-negative top
score is reported as "not found" and no candidate is ever picked; but when
the top score is positive the earliest candidate attaining it is picked —
also when several candidates tie for the top score. -/
theorem dbt_discovery_scored_selection (sqlFile taskId : String)
    (dirFiles : List String)
    (hvar : (sqlVariations sqlFile).find?
      (fun v => (dirFiles.filter (fun c => strEndsWith c ".sql")).contains v) = none) :
    ((∀ f ∈ dirFiles.filter (fun c => strEndsWith c ".sql"),
        scoreFile sqlFile taskId f ≤ 0) →
      discoverSql sqlFile taskId dirFiles = none) ∧
    (∀ f s, pickBest (scoreFile sqlFile taskId)
        (dirFiles.filter (fun c => strEndsWith c ".sql")) = some (f, s) →
      0 < s →
      discoverSql sqlFile taskId dirFiles = some f ∧
      (∀ g ∈ dirFiles.filter (fun c => strEndsWith c ".sql"),
        scoreFile sqlFile taskId g ≤ s) ∧
      ∃ l1 l2, dirFiles.filter (fun c => strEndsWith c ".sql") = l1 ++ f :: l2 ∧
        ∀ g ∈ l1, scoreFile sqlFile taskId g < s) := by
  constructor
  · intro hall
    simp only [discoverSql]
    rw [hvar]
    cases hpick : pickBest (scoreFile sqlFile taskId)
        (dirFiles.filter (fun c => strEndsWith c ".sql")) with
    | none =>
      have hnil := (pickBest_none_iff _ _).mp hpick
      simp [hnil]
    | some fs =>
      obtain ⟨f, s⟩ := fs
      obtain ⟨hs, _, l1, l2, hdec, _⟩ := pickBest_spec _ _ _ _ hpick
      have hf_mem : f ∈ dirFiles.filter (fun c => strEndsWith c ".sql") := by
        rw [hdec]; exact List.mem_append_right _ (List.mem_cons_self _ _)
      have hnonpos : s ≤ 0 := by rw [hs]; exact hall f hf_mem
      have hlen : (dirFiles.filter (fun c => strEndsWith c ".sql")).length > 0 := by
        rw [hdec]; simp
      simp [hpick, hlen, not_lt.mpr hnonpos]
  · intro f s hpick hpos
    obtain ⟨hs, hball, l1, l2, hdec, hlt⟩ := pickBest_spec _ _ _ _ hpick
    have hne : dirFiles.filter (fun c => strEndsWith c ".sql") ≠ [] := by
      intro hnil
      rw [hnil] at hpick
      cases hpick
    have hlen : (dirFiles.filter (fun c => strEndsWith c ".sql")).length > 0 :=
      List.length_pos.mpr hne
    refine ⟨?_, hball, l1, l2, hdec, hlt⟩
    simp only [discoverSql]
    rw [hvar]
    simp only [hlen, if_pos, hpick]
    simp [hpos]

theorem dbt_discovery_scored_selection_witness :
    discoverSql "stg_arpu.sql" "arpu" ["schema.yml", "notes.txt"] = none ∧
    discoverSql "stg_ltv.sql" "ltv" ["stg_stripe_invoices.sql", "org_ltv.sql"] =
      some "org_ltv.sql" := by
  constructor
  · exact (dbt_discovery_scored_selection "stg_arpu.sql" "arpu"
      ["schema.yml", "notes.txt"] (by decide)).1 (by decide)
  · exact ((dbt_discovery_scored_selection "stg_ltv.sql" "ltv"
      ["stg_stripe_invoices.sql", "org_ltv.sql"] (by decide)).2
      "org_ltv.sql" 145 (by decide) (by decide)).1




/-- A well-formed tool tag as the parser recognizes it: `<tool>`, a nonempty
run of word characters, `</tool>`. -/
def HasToolTagP (cs : List Char) : Prop :=
  ∃ pre w suf, cs = pre ++ openToolTag ++ w ++ closeToolTag ++ suf ∧
    w ≠ [] ∧ ∀ c ∈ w, isWordChar c = true

/-- Any `<tool>...</tool>` pair, empty or malformed contents included — the
wording of the specified null condition ("the text contains no `<tool>`
tag"). -/
def specContainsToolTag (s : String) : Prop :=
  ∃ pre mid suf, s.data = pre ++ openToolTag ++ mid ++ closeToolTag ++ suf

/-- `takeWhile`/`dropWhile` split an all-satisfying block followed by a
failing head exactly at the boundary. -/
theorem takeWhile_dropWhile_block (p : Char → Bool) :
    ∀ (w l : List Char), (∀ c ∈ w, p c = true) →
      (l = [] ∨ ∃ c l2, l = c :: l2 ∧ p c = false) →
      (w ++ l).takeWhile p = w ∧ (w ++ l).dropWhile p = l := by
  intro w
  induction w with
  | nil =>
    intro l _ hl
    rcases hl with rfl | ⟨c, l2, rfl, hc⟩
    · exact ⟨rfl, rfl⟩
    · simp [List.takeWhile_cons, List.dropWhile_cons, hc]
  | cons a w2 ih =>
    intro l hw hl
    have hpa : p a = true := hw a (List.mem_cons_self a w2)
    have hrest := ih l (fun c hc => hw c (List.mem_cons_of_mem a hc)) hl
    simp [List.takeWhile_cons, List.dropWhile_cons, hpa, hrest.1, hrest.2]

/-- Soundness of the anchored match: a successful match decomposes the
input into tag, nonempty word run, closing tag, remainder. -/
theorem matchToolAt_sound (cs : List Char) (w : List Char)
    (h : matchToolAt cs = some w) :
    ∃ suf, cs = openToolTag ++ w ++ closeToolTag ++ suf ∧
      w ≠ [] ∧ ∀ c ∈ w, isWordChar c = true := by
  unfold matchToolAt at h
  by_cases hpre : openToolTag.isPrefixOf cs
  · rw [if_pos hpre] at h
    obtain ⟨t, rfl⟩ := List.isPrefixOf_iff_prefix.mp hpre
    have hdrop : (openToolTag ++ t).drop 6 = t := List.drop_left openToolTag t
    rw [hdrop] at h
    by_cases hword : t.takeWhile isWordChar = []
    · rw [if_pos hword] at h
      cases h
    · rw [if_neg hword] at h
      by_cases hclose : closeToolTag.isPrefixOf (t.dropWhile isWordChar)
      · rw [if_pos hclose] at h
        obtain ⟨suf, hsuf⟩ := List.isPrefixOf_iff_prefix.mp hclose
        cases h
        refine ⟨suf, ?_, hword, fun c hc => List.mem_takeWhile_imp hc⟩
        simp only [List.append_assoc]
        rw [hsuf, List.takeWhile_append_dropWhile]
      · rw [if_neg hclose] at h
        cases h
  · rw [if_neg hpre] at h
    cases h

/-- Completeness of the anchored match at a decomposition point. -/
theorem matchToolAt_complete (w suf : List Char) (hne : w ≠ [])
    (hword : ∀ c ∈ w, isWordChar c = true) :
    matchToolAt (openToolTag ++ w ++ closeToolTag ++ suf) = some w := by
  have hblock := takeWhile_dropWhile_block isWordChar w (closeToolTag ++ suf) hword
    (Or.inr ⟨'<', "/tool>".data ++ suf, by simp [closeToolTag], rfl⟩)
  have hdrop : (openToolTag ++ (w ++ (closeToolTag ++ suf))).drop 6 =
      w ++ (closeToolTag ++ suf) := List.drop_left openToolTag _
  simp only [matchToolAt, List.append_assoc]
  rw [if_pos (List.isPrefixOf_iff_prefix.mpr (List.prefix_append _ _)), hdrop,
    hblock.1, hblock.2, if_neg hne,
    if_pos (List.isPrefixOf_iff_prefix.mpr (List.prefix_append _ _))]

/-- The scanner only answers with an anchored match somewhere in the input. -/
theorem findToolName_sound :
    ∀ (cs : List Char) (w : List Char), findToolName cs = some w →
      ∃ i, matchToolAt (cs.drop i) = some w := by
  intro cs
  induction cs with
  | nil => intro w h; cases h
  | cons c cs2 ih =>
    intro w h
    rw [findToolName] at h
    cases hm : matchToolAt (c :: cs2) with
    | some w2 => rw [hm] at h; cases h; exact ⟨0, hm⟩
    | none =>
      rw [hm] at h
      obtain ⟨i, hi⟩ := ih w h
      exact ⟨i + 1, by rwa [List.drop_succ_cons]⟩

/-- The scanner reports the leftmost anchored match. -/
theorem findToolName_first :
    ∀ (cs : List Char) (i : Nat) (w : List Char),
      matchToolAt (cs.drop i) = some w →
      (∀ j, j < i → matchToolAt (cs.drop j) = none) →
      findToolName cs = some w := by
  intro cs
  induction cs with
  | nil =>
    intro i w h _
    rw [List.drop_nil] at h
    cases h
  | cons c cs2 ih =>
    intro i w h hj
    cases i with
    | zero =>
      rw [List.drop_zero] at h
      rw [findToolName, h]
    | succ i2 =>
      have h0 : matchToolAt (c :: cs2) = none := by
        have := hj 0 (Nat.succ_pos i2)
        rwa [List.drop_zero] at this
      rw [findToolName, h0]
      rw [List.drop_succ_cons] at h
      refine ih i2 w h (fun j hji => ?_)
      have := hj (j + 1) (Nat.succ_lt_succ hji)
      rwa [List.drop_succ_cons] at this

/-- The scanner reports nothing exactly when no position holds an anchored
match. -/
theorem findToolName_none_iff :
    ∀ cs : List Char, findToolName cs = none ↔ ∀ i, matchToolAt (cs.drop i) = none := by
  intro cs
  induction cs with
  | nil =>
    constructor
    · intro _ i
      rw [List.drop_nil]
      rfl
    · intro _
      rfl
  | cons c cs2 ih =>
    constructor
    · intro h i
      rw [findToolName] at h
      cases hm : matchToolAt (c :: cs2) with
      | some w => rw [hm] at h; cases h
      | none =>
        rw [hm] at h
        cases i with
        | zero => rwa [List.drop_zero]
        | succ i2 =>
          rw [List.drop_succ_cons]
          exact (ih.mp h) i2
    · intro h
      have h0 : matchToolAt (c :: cs2) = none := by
        have := h 0
        rwa [List.drop_zero] at this
      rw [findToolName, h0]
      refine ih.mpr (fun i => ?_)
      have := h (i + 1)
      rwa [List.drop_succ_cons] at this

/-- An anchored match exists somewhere iff the input decomposes around a
well-formed tool tag. -/
theorem exists_match_iff_hasToolTag (cs : List Char) :
    (∃ i w, matchToolAt (cs.drop i) = some w) ↔ HasToolTagP cs := by
  constructor
  · rintro ⟨i, w, hm⟩
    obtain ⟨suf, hdec, hne, hword⟩ := matchToolAt_sound _ _ hm
    refine ⟨cs.take i, w, suf, ?_, hne, hword⟩
    conv_lhs => rw [← List.take_append_drop i cs]
    rw [hdec]
    simp [List.append_assoc]
  · rintro ⟨pre, w, suf, hdec, hne, hword⟩
    refine ⟨pre.length, w, ?_⟩
    have hdrop : cs.drop pre.length = openToolTag ++ w ++ closeToolTag ++ suf := by
      rw [hdec]
      simp only [List.append_assoc]
      exact List.drop_left pre _
    rw [hdrop]
    exact matchToolAt_complete w suf hne hword

/-- C4 counterexample: the text `<tool></tool>` contains a `<tool>` tag, yet
the parser returns null on it (the tag encloses no word character), so
"returns null exactly when the text contains no `<tool>` tag" fails. -/
theorem tool_parser_null_condition_counterexample :
    specContainsToolTag "<tool></tool>" ∧
      parseToolCallArch "<tool></tool>" = none := by
  constructor
  · exact ⟨[], [], [], by decide⟩
  · decide

/-- C4 (amended): the parser is a total function returning a well-formed
call (nonempty word-character tool name) or null; it returns null exactly
when the text contains no `<tool>NAME</tool>` tag whose NAME is a nonempty
run of word characters; the bash-eval parser returns null under exactly the
same condition; and when several tool tags are present the leftmost match is
the one used. -/
theorem tool_parser_total_first_match (s : String) :
    (∀ tc, parseToolCallArch s = some tc →
      tc.tool ≠ "" ∧ ∀ c ∈ tc.tool.data, isWordChar c = true) ∧
    (parseToolCallArch s = none ↔ ¬ HasToolTagP s.data) ∧
    (parseToolCallBash s = none ↔ parseToolCallArch s = none) ∧
    (∀ i w, matchToolAt (s.data.drop i) = some w →
      (∀ j, j < i → matchToolAt (s.data.drop j) = none) →
      ∃ tc, parseToolCallArch s = some tc ∧ tc.tool = String.mk w) := by
  refine ⟨?_, ?_, ?_, ?_⟩
  · intro tc htc
    cases hf : findToolName s.data with
    | none => rw [parseToolCallArch, hf] at htc; cases htc
    | some w =>
      rw [parseToolCallArch, hf] at htc
      obtain ⟨i, hi⟩ := findToolName_sound s.data w hf
      obtain ⟨_, _, hne, hword⟩ := matchToolAt_sound _ _ hi
      cases htc
      constructor
      · intro hempty
        exact hne (by simpa [String.ext_iff] using hempty)
      · exact hword
  · constructor
    · intro h
      have hfind : findToolName s.data = none := by
        cases hf : findToolName s.data with
        | none => rfl
        | some w => rw [parseToolCallArch, hf] at h; cases h
      intro htag
      obtain ⟨i, w, hm⟩ := (exists_match_iff_hasToolTag s.data).mpr htag
      have := (findToolName_none_iff s.data).mp hfind i
      rw [this] at hm
      cases hm
    · intro htag
      cases hf : findToolName s.data with
      | none => rw [parseToolCallArch, hf]
      | some w =>
        obtain ⟨i, hi⟩ := findToolName_sound s.data w hf
        exact absurd ((exists_match_iff_hasToolTag s.data).mp ⟨i, w, hi⟩) htag
  · cases hf : findToolName s.data with
    | none => simp [parseToolCallArch, parseToolCallBash, hf]
    | some w => simp [parseToolCallArch, parseToolCallBash, hf]
  · intro i w hm hfirst
    have hfind := findToolName_first s.data i w hm hfirst
    rw [parseToolCallArch, hfind]
    exact ⟨_, rfl, rfl⟩

theorem tool_parser_total_first_match_witness :
    ∃ tc, parseToolCallArch "x <tool>read_file</tool> y <tool>done</tool>" = some tc ∧
      tc.tool = String.mk "read_file".data :=
  (tool_parser_total_first_match "x <tool>read_file</tool> y <tool>done</tool>").2.2.2
    2 "read_file".data (by decide) (by decide)
